import Mathlib

/-!
Verification of the EchoSphere emotion classification engine
(`chat/emotion_analyzer.py`), shallowly embedded in Lean 4.

Strings are modelled as `List Char`; the Python `re` operations used by the
source (literal alternations guarded by word boundaries, emoji character
classes, run-collapsing substitutions) are implemented directly on character
lists with the same scanning semantics as CPython's `re` module on these
specific patterns.  Scores are exact rationals.
-/

namespace EchoSphere

/-! ### Basic character helpers -/

/-- Python regex word character (`\w`) restricted to the ASCII alphabet the
patterns use: letters, digits, underscore. -/
def isWord (c : Char) : Bool := c.isAlphanum || c == '_'

/-- Characters stripped by Python `str.strip()` (ASCII whitespace). -/
def pyIsSpace (c : Char) : Bool :=
  c == ' ' || c == '\t' || c == '\n' || c == '\r' || c == '\x0b' || c == '\x0c'

/-- Python `str.strip()`. -/
def pyStrip (s : List Char) : List Char :=
  (((s.dropWhile pyIsSpace).reverse).dropWhile pyIsSpace).reverse

/-- Python `str.lower()` on the ASCII range used here. -/
def pyLower (s : List Char) : List Char := s.map Char.toLower

/-- Generic "is `p` a prefix of `s`" with a custom character comparison. -/
def isPrefixBy (eqf : Char → Char → Bool) : List Char → List Char → Bool
  | [], _ => true
  | _ :: _, [] => false
  | p :: ps, c :: cs => eqf p c && isPrefixBy eqf ps cs

/-- Case-sensitive character equality (Python `in` on `str`). -/
def eqCS (p c : Char) : Bool := p == c

/-- Case-insensitive comparison of a lowercase pattern char against a text
char (`re.IGNORECASE` with lowercase patterns). -/
def eqCI (p c : Char) : Bool := p == c.toLower

/-- Python substring containment `p in s`. -/
def containsSub (p : List Char) : List Char → Bool
  | [] => p.isEmpty
  | c :: cs => isPrefixBy eqCS p (c :: cs) || containsSub p cs

/-! ### Text normalizer (`preprocess_text`) -/

/-- `re.sub(r'[t]{2,}', 't', s)`: collapse every run of 2+ copies of `t`
into a single `t`. -/
def collapseChar (t : Char) : List Char → List Char
  | [] => []
  | [c] => [c]
  | c :: d :: s =>
      if c == t && d == t then collapseChar t (d :: s)
      else c :: collapseChar t (d :: s)

/-- `re.sub(r'(.)\1{2,}', r'\1\1', s)`: collapse every run of 3+ identical
characters into exactly 2.  Python's `.` does not match `'\n'`, so newline
runs are left untouched. -/
def collapseRepeats : List Char → List Char
  | c :: d :: e :: s =>
      if c == d && d == e && !(c == '\n') then collapseRepeats (d :: e :: s)
      else c :: collapseRepeats (d :: e :: s)
  | l => l

/-- The normalizer pipeline applied to an actual string
(`text.lower().strip()` then the three substitutions). -/
def preprocessStr (s : List Char) : List Char :=
  collapseRepeats (collapseChar '?' (collapseChar '!' (pyStrip (pyLower s))))

/-- A Python value passed as message text: `None`, some non-string object,
or a string. -/
inductive TextInput where
  | pyNone : TextInput
  | nonString : TextInput
  | str : List Char → TextInput

/-- `EmotionAnalyzer.preprocess_text`: guard clause returns `""` for falsy
or non-string input, otherwise the normalizer pipeline. -/
def preprocess_text : TextInput → List Char
  | TextInput.str s => preprocessStr s
  | _ => []

/-! ### Pattern emotion scorer (`analyze_emotion_patterns`) -/

/-- The six pattern emotion categories, in the dictionary's declaration
order. -/
inductive Cat where
  | happy | sad | angry | surprised | fearful | disgusted
deriving DecidableEq

def catName : Cat → String
  | Cat.happy => "happy"
  | Cat.sad => "sad"
  | Cat.angry => "angry"
  | Cat.surprised => "surprised"
  | Cat.fearful => "fearful"
  | Cat.disgusted => "disgusted"

/-- One regex pattern group: either a word-boundary guarded alternation of
literal phrases (`\b(a|b|...)\b`), or a character class (`[...]`). -/
inductive Pat where
  | alts : List (List Char) → Pat
  | cls : List Char → Pat

def happy1 : List (List Char) :=
  ["happy", "joy", "excited", "great", "awesome", "amazing", "love",
   "wonderful", "fantastic", "excellent", "brilliant", "perfect", "good",
   "nice", "pleased", "delighted", "thrilled", "ecstatic"].map String.toList

def happyE : List Char := ['😊', '😄', '😃', '😀', '🥳', '🎉', '😍', '🤩']

def happy3 : List (List Char) :=
  ["yay", "woohoo", "hurray", "yes!", "yess", "woo"].map String.toList

def sad1 : List (List Char) :=
  ["sad", "depressed", "down", "low", "upset", "hurt", "disappointed",
   "miserable", "unhappy", "gloomy", "blue", "heartbroken",
   "devastated"].map String.toList

def sadE : List Char := ['😢', '😭', '😞', '😔', '☹', '\uFE0F', '💔', '😪', '😟']

def sad3 : List (List Char) :=
  ["cry", "crying", "tears", "weep", "sob"].map String.toList

def angry1 : List (List Char) :=
  ["angry", "mad", "furious", "pissed", "annoyed", "frustrated",
   "irritated", "rage", "hate", "disgusted", "fed up",
   "sick of"].map String.toList

def angryE : List Char := ['😠', '😡', '🤬', '😤', '💢']

def angry3 : List (List Char) :=
  ["damn", "shit", "fuck", "hell", "stupid", "idiot",
   "hate"].map String.toList

def surprised1 : List (List Char) :=
  ["surprised", "shocked", "amazed", "wow", "whoa", "omg", "incredible",
   "unbelievable", "astonishing"].map String.toList

def surprisedE : List Char := ['😲', '😱', '🤯', '😧', '😮']

def surprised3 : List (List Char) :=
  ["wow!", "omg!", "no way!", "really?", "seriously?"].map String.toList

def fearful1 : List (List Char) :=
  ["scared", "afraid", "frightened", "terrified", "worried", "anxious",
   "nervous", "panic", "fear"].map String.toList

def fearfulE : List Char := ['😨', '😰', '😱', '🙈']

def fearful3 : List (List Char) :=
  ["help", "scared", "terrifying", "nightmare"].map String.toList

def disgusted1 : List (List Char) :=
  ["disgusted", "sick", "gross", "yuck", "eww", "nasty", "revolting",
   "repulsive"].map String.toList

def disgustedE : List Char := ['🤢', '🤮', '😷', '🤧']

def disgusted3 : List (List Char) :=
  ["yuck", "eww", "gross", "ugh"].map String.toList

/-- `self.emotion_patterns`, category by category in source order. -/
def patternsOf : Cat → List Pat
  | Cat.happy => [Pat.alts happy1, Pat.cls happyE, Pat.alts happy3]
  | Cat.sad => [Pat.alts sad1, Pat.cls sadE, Pat.alts sad3]
  | Cat.angry => [Pat.alts angry1, Pat.cls angryE, Pat.alts angry3]
  | Cat.surprised =>
      [Pat.alts surprised1, Pat.cls surprisedE, Pat.alts surprised3]
  | Cat.fearful => [Pat.alts fearful1, Pat.cls fearfulE, Pat.alts fearful3]
  | Cat.disgusted =>
      [Pat.alts disgusted1, Pat.cls disgustedE, Pat.alts disgusted3]

def intensifiersL : List (List Char) :=
  ["very", "extremely", "incredibly", "super", "really", "so",
   "absolutely"].map String.toList

def diminishersL : List (List Char) :=
  ["slightly", "somewhat", "kind of", "sort of", "a bit",
   "little"].map String.toList

/-- Is the head of the list a word character (end of string counts as
non-word)? -/
def headIsWord : List Char → Bool
  | [] => false
  | c :: _ => isWord c

/-- Does alternative `a` match at the start of `s` with a valid trailing
word boundary (`re.IGNORECASE`, lowercase patterns)? -/
def altOk (a s : List Char) : Bool :=
  isPrefixBy eqCI a s && (isWord (a.getLastD ' ') != headIsWord (s.drop a.length))

/-- Leftmost alternative (in pattern order) that matches at the start of
`s`, as Python's backtracking alternation does. -/
def firstAlt (alts : List (List Char)) (s : List Char) : Option (List Char) :=
  alts.find? (fun a => altOk a s)

/-- Count of non-overlapping matches of `\b(alt1|alt2|...)\b` found by a
left-to-right scan, as `re.findall` does.  `w` records whether the
previous character is a word character; `skip` counters step over the
remaining characters of a match already counted. -/
def scanAlts (alts : List (List Char)) : Bool → Nat → List Char → Nat
  | _, _, [] => 0
  | _, Nat.succ k, c :: s => scanAlts alts (isWord c) k s
  | w, 0, c :: s =>
      if w != isWord c then
        match firstAlt alts (c :: s) with
        | some a => 1 + scanAlts alts (isWord c) (a.length - 1) s
        | none => scanAlts alts (isWord c) 0 s
      else scanAlts alts (isWord c) 0 s

/-- `len(re.findall(pattern, text, re.IGNORECASE))` for one pattern group. -/
def countPat : Pat → List Char → Nat
  | Pat.alts l, t => scanAlts l false 0 t
  | Pat.cls s, t => t.countP (fun c => s.contains c)

/-- `any(intensifier in text for intensifier in self.intensifiers)`:
the loop multiplies once and breaks, so its effect is this disjunction. -/
def hasIntens (t : List Char) : Bool := intensifiersL.any (fun i => containsSub i t)

/-- Same for the diminisher loop. -/
def hasDim (t : List Char) : Bool := diminishersL.any (fun d => containsSub d t)

/-- Contribution of one pattern group to its category's score: skipped when
there is no match, otherwise `len(matches) * 0.3`, times `1.5` when an
intensifier occurs anywhere in the text, times `0.7` when a diminisher
occurs anywhere in the text. -/
def groupScore (t : List Char) (p : Pat) : ℚ :=
  let n := countPat p t
  if n ≠ 0 then
    let base : ℚ := (n : ℚ) * (3 / 10)
    let base₁ := if hasIntens t then base * (3 / 2) else base
    let base₂ := if hasDim t then base₁ * (7 / 10) else base₁
    base₂
  else 0

/-- Accumulated score of a category over its pattern groups. -/
def patsScore (t : List Char) (pats : List Pat) : ℚ :=
  pats.foldl (fun a p => a + groupScore t p) 0

/-- `EmotionAnalyzer.analyze_emotion_patterns` as a map from category to
accumulated score. -/
def analyze_emotion_patterns (t : List Char) : Cat → ℚ :=
  fun c => patsScore t (patternsOf c)

/-! ### Sentiment scorers and fusion classifier -/

/-- VADER output dictionary (`compound`, `pos`, `neg`, `neu`). -/
structure VaderScores where
  compound : ℚ
  positive : ℚ
  negative : ℚ
  neutral : ℚ
deriving DecidableEq

/-- TextBlob sentiment output. -/
structure BlobScores where
  polarity : ℚ
  subjectivity : ℚ
deriving DecidableEq

/-- Neutral default returned by `analyze_with_vader` on failure. -/
def defaultVader : VaderScores := ⟨0, 0, 0, 1⟩

/-- Neutral default returned by `analyze_with_textblob` on failure. -/
def defaultBlob : BlobScores := ⟨0, 0⟩

/-- `EmotionAnalyzer.analyze_with_vader`: the underlying library call is an
oracle that either returns scores or raises; the `try/except` returns the
neutral default on failure. -/
def analyze_with_vader (call : List Char → Except String VaderScores)
    (text : List Char) : VaderScores :=
  match call text with
  | Except.ok s => s
  | Except.error _ => defaultVader

/-- `EmotionAnalyzer.analyze_with_textblob`, same shape. -/
def analyze_with_textblob (call : List Char → Except String BlobScores)
    (text : List Char) : BlobScores :=
  match call text with
  | Except.ok s => s
  | Except.error _ => defaultBlob

/-- Python `max(iterable, key=lambda x: x[1])`: fold keeping the current
item unless a strictly greater key appears, so the first maximum wins. -/
def pyMax : (String × ℚ) → List (String × ℚ) → String × ℚ
  | acc, [] => acc
  | acc, x :: l => pyMax (if x.2 > acc.2 then x else acc) l

/-- The `pattern_scores.items()` list, in the dictionary's insertion
order. -/
def patternItems (ps : Cat → ℚ) : List (String × ℚ) :=
  [("happy", ps Cat.happy), ("sad", ps Cat.sad), ("angry", ps Cat.angry),
   ("surprised", ps Cat.surprised), ("fearful", ps Cat.fearful),
   ("disgusted", ps Cat.disgusted)]

/-- `max(pattern_scores.items(), key=lambda x: x[1])` (line 145). -/
def max_pattern_emotion (ps : Cat → ℚ) : String × ℚ :=
  pyMax ("happy", ps Cat.happy) (patternItems ps).tail

/-- `EmotionAnalyzer.classify_emotion`: pattern branch when the maximum
pattern score exceeds 0.5, otherwise the sentiment fallback; final
confidence clamped to [0, 1]. -/
def classify_emotion (v : VaderScores) (b : BlobScores) (ps : Cat → ℚ) :
    String × ℚ :=
  let compound := v.compound
  let polarity := b.polarity
  let m := max_pattern_emotion ps
  let ec : String × ℚ :=
    if m.2 > 1 / 2 then (m.1, min m.2 1)
    else if compound ≥ 1 / 2 ∨ polarity ≥ 3 / 10 then
      ((if compound ≥ 7 / 10 ∨ polarity ≥ 1 / 2 then "happy" else "positive"),
       if compound ≠ 0 then |compound| else |polarity|)
    else if compound ≤ -(1 / 2) ∨ polarity ≤ -(3 / 10) then
      ((if compound ≤ -(7 / 10) ∨ polarity ≤ -(1 / 2) then "angry" else "sad"),
       if compound ≠ 0 then |compound| else |polarity|)
    else ("neutral", 1 - |compound|)
  (ec.1, max 0 (min 1 ec.2))

/-- The dictionary returned by `EmotionAnalyzer.analyze`. -/
structure AnalysisResult where
  emotion : String
  confidence : ℚ
  polarity : ℚ
  subjectivity : ℚ
  vader_scores : VaderScores
  pattern_scores : Cat → ℚ

/-- The short-circuit result for empty/non-string/whitespace input. -/
def defaultResult : AnalysisResult :=
  { emotion := "neutral", confidence := 1 / 2, polarity := 0,
    subjectivity := 0, vader_scores := defaultVader,
    pattern_scores := fun _ => 0 }

/-- `EmotionAnalyzer.analyze`, parameterized over the two external library
calls.  `not text or not isinstance(text, str) or len(text.strip()) == 0`
short-circuits to the neutral default. -/
def analyze (vaderCall : List Char → Except String VaderScores)
    (blobCall : List Char → Except String BlobScores)
    (inp : TextInput) : AnalysisResult :=
  match inp with
  | TextInput.pyNone => defaultResult
  | TextInput.nonString => defaultResult
  | TextInput.str s =>
      if (pyStrip s).length = 0 then defaultResult
      else
        let processed := preprocessStr s
        let v := analyze_with_vader vaderCall processed
        let b := analyze_with_textblob blobCall processed
        let ps := analyze_emotion_patterns processed
        let ec := classify_emotion v b ps
        { emotion := ec.1, confidence := ec.2, polarity := b.polarity,
          subjectivity := b.subjectivity, vader_scores := v,
          pattern_scores := ps }

/-- `EmotionAnalyzer.get_emotion_emoji`. -/
def get_emotion_emoji (emotion : String) : String :=
  if emotion = "happy" then "😊"
  else if emotion = "sad" then "😢"
  else if emotion = "angry" then "😠"
  else if emotion = "surprised" then "😲"
  else if emotion = "fearful" then "😨"
  else if emotion = "disgusted" then "🤢"
  else if emotion = "neutral" then "😐"
  else if emotion = "positive" then "🙂"
  else if emotion = "negative" then "😞"
  else "😐"

/-! ### Properties of the maximum selection -/

/-- Running maximum of the score components, seeded with `q`. -/
def sndMax (q : ℚ) (l : List (String × ℚ)) : ℚ :=
  l.foldl (fun m x => max m x.2) q

/-- The maximum accumulated pattern score over the six categories, in
enumeration order. -/
def maxPatternScore (ps : Cat → ℚ) : ℚ :=
  max (max (max (max (max (ps Cat.happy) (ps Cat.sad)) (ps Cat.angry))
    (ps Cat.surprised)) (ps Cat.fearful)) (ps Cat.disgusted)

theorem pyMax_snd (acc : String × ℚ) (l : List (String × ℚ)) :
    (pyMax acc l).2 = sndMax acc.2 l := by
  induction l generalizing acc with
  | nil => rfl
  | cons x l ih =>
      show (pyMax (if x.2 > acc.2 then x else acc) l).2 = sndMax (max acc.2 x.2) l
      rw [ih]
      congr 1
      split
      · exact (max_eq_right (le_of_lt (by assumption))).symm
      · exact (max_eq_left (le_of_not_lt (by assumption))).symm

theorem pyMax_mem (acc : String × ℚ) (l : List (String × ℚ)) :
    pyMax acc l = acc ∨ pyMax acc l ∈ l := by
  induction l generalizing acc with
  | nil => exact Or.inl rfl
  | cons x l ih =>
      have hstep : pyMax acc (x :: l) = pyMax (if x.2 > acc.2 then x else acc) l := rfl
      rw [hstep]
      rcases ih (if x.2 > acc.2 then x else acc) with h | h
      · rw [h]
        split
        · exact Or.inr (List.mem_cons_self _ _)
        · exact Or.inl rfl
      · exact Or.inr (List.mem_cons_of_mem _ h)

theorem le_sndMax (l : List (String × ℚ)) (q : ℚ) : q ≤ sndMax q l := by
  induction l generalizing q with
  | nil => exact le_refl q
  | cons x l ih =>
      exact le_trans (le_max_left q x.2) (ih (max q x.2))

/-- The Python `max` with a key returns the first item attaining the
maximum key. -/
theorem pyMax_find? (l : List (String × ℚ)) (acc : String × ℚ) :
    List.find? (fun y => decide (y.2 = sndMax acc.2 l)) (acc :: l) =
      some (pyMax acc l) := by
  induction l generalizing acc with
  | nil =>
      simp [sndMax, pyMax, List.find?]
  | cons x l ih =>
      have hM : sndMax acc.2 (x :: l) = sndMax (max acc.2 x.2) l := rfl
      by_cases hx : x.2 > acc.2
      · have hmax : max acc.2 x.2 = x.2 := max_eq_right hx.le
        have hM2 : sndMax acc.2 (x :: l) = sndMax x.2 l := by rw [hM, hmax]
        have hstep : pyMax acc (x :: l) = pyMax x l := by
          show pyMax (if x.2 > acc.2 then x else acc) l = pyMax x l
          rw [if_pos hx]
        have hacc : ¬ (acc.2 = sndMax acc.2 (x :: l)) := by
          rw [hM2]
          have := le_sndMax l x.2
          intro hcontra
          linarith
        rw [hstep]
        calc List.find? (fun y => decide (y.2 = sndMax acc.2 (x :: l))) (acc :: x :: l)
            = List.find? (fun y => decide (y.2 = sndMax acc.2 (x :: l))) (x :: l) := by
              rw [List.find?_cons_of_neg]
              simpa using hacc
          _ = some (pyMax x l) := by rw [hM2]; exact ih x
      · have hmax : max acc.2 x.2 = acc.2 := max_eq_left (le_of_not_lt hx)
        have hM2 : sndMax acc.2 (x :: l) = sndMax acc.2 l := by rw [hM, hmax]
        have hstep : pyMax acc (x :: l) = pyMax acc l := by
          show pyMax (if x.2 > acc.2 then x else acc) l = pyMax acc l
          rw [if_neg hx]
        rw [hstep, hM2]
        by_cases hacc : acc.2 = sndMax acc.2 l
        · have h1 : List.find? (fun y => decide (y.2 = sndMax acc.2 l)) (acc :: l) =
              some acc := List.find?_cons_of_pos _ (by simpa using hacc)
          have h2 : pyMax acc l = acc := by
            have := ih acc
            rw [h1] at this
            exact (Option.some.inj this).symm
          rw [h2]
          exact List.find?_cons_of_pos _ (by simpa using hacc)
        · have hxne : ¬ (x.2 = sndMax acc.2 l) := by
            intro hcontra
            have h1 : acc.2 ≤ sndMax acc.2 l := le_sndMax l acc.2
            have h2 : x.2 ≤ acc.2 := le_of_not_lt hx
            exact hacc (le_antisymm h1 (hcontra ▸ h2))
          have hskip : List.find? (fun y => decide (y.2 = sndMax acc.2 l)) (acc :: x :: l) =
              List.find? (fun y => decide (y.2 = sndMax acc.2 l)) l := by
            rw [List.find?_cons_of_neg _ (by simpa using hacc),
              List.find?_cons_of_neg _ (by simpa using hxne)]
          have hmain := ih acc
          rw [List.find?_cons_of_neg _ (by simpa using hacc)] at hmain
          rw [hskip]
          exact hmain

theorem max_pattern_emotion_snd (ps : Cat → ℚ) :
    (max_pattern_emotion ps).2 = maxPatternScore ps := by
  rw [max_pattern_emotion, pyMax_snd]
  rfl

theorem clamp01_eq (x : ℚ) (h0 : 0 ≤ x) (h1 : x ≤ 1) : max 0 (min 1 x) = x := by
  rw [min_eq_right h1, max_eq_right h0]

/-! ### Claim theorems: fusion classifier -/

/-- C2: whenever the maximum accumulated pattern score exceeds 0.5,
`classify_emotion` returns the category achieving that maximum together
with confidence `min(max_score, 1.0)`, for every value of the sentiment
scores. -/
theorem classify_pattern_precedence (v : VaderScores) (b : BlobScores)
    (ps : Cat → ℚ) (h : 1 / 2 < maxPatternScore ps) :
    ∃ c : Cat, ps c = maxPatternScore ps ∧
      classify_emotion v b ps = (catName c, min (maxPatternScore ps) 1) := by
  have hm2 : (max_pattern_emotion ps).2 = maxPatternScore ps :=
    max_pattern_emotion_snd ps
  have hmem := pyMax_mem ("happy", ps Cat.happy) (patternItems ps).tail
  have hx : ∃ c : Cat, max_pattern_emotion ps = (catName c, ps c) := by
    rcases hmem with h' | h'
    · exact ⟨Cat.happy, h'⟩
    · simp only [patternItems, List.tail_cons, List.mem_cons,
        List.mem_singleton, List.not_mem_nil, or_false] at h'
      rcases h' with h' | h' | h' | h' | h'
      · exact ⟨Cat.sad, h'⟩
      · exact ⟨Cat.angry, h'⟩
      · exact ⟨Cat.surprised, h'⟩
      · exact ⟨Cat.fearful, h'⟩
      · exact ⟨Cat.disgusted, h'⟩
  obtain ⟨c, hc⟩ := hx
  have hpsc : ps c = maxPatternScore ps := by
    rw [← hm2, hc]
  refine ⟨c, hpsc, ?_⟩
  have hgt : (max_pattern_emotion ps).2 > 1 / 2 := by rw [hm2]; exact h
  have hconf : max 0 (min 1 (min (max_pattern_emotion ps).2 1)) =
      min (maxPatternScore ps) 1 := by
    rw [hm2]
    have h0 : (0 : ℚ) ≤ min (maxPatternScore ps) 1 :=
      le_min (by linarith) (by norm_num)
    have h1 : min (maxPatternScore ps) 1 ≤ 1 := min_le_right _ _
    rw [min_eq_right h1, max_eq_right h0]
  have hcls : classify_emotion v b ps =
      ((max_pattern_emotion ps).1,
        max 0 (min 1 (min (max_pattern_emotion ps).2 1))) := by
    simp only [classify_emotion]
    rw [if_pos hgt]
  rw [hcls, hconf, hc]

/-- C3: when several categories tie for the maximal accumulated pattern
score, the category selected at line 145 (`max_pattern_emotion`) is the
first item, in the fixed enumeration order happy, sad, angry, surprised,
fearful, disgusted, whose score attains the maximum. -/
theorem classify_tie_break_first_category (ps : Cat → ℚ) (c₁ c₂ : Cat)
    (hne : c₁ ≠ c₂) (h₁ : ps c₁ = maxPatternScore ps)
    (h₂ : ps c₂ = maxPatternScore ps) :
    List.find? (fun y => decide (y.2 = maxPatternScore ps)) (patternItems ps) =
      some (max_pattern_emotion ps) := by
  have h := pyMax_find? (patternItems ps).tail ("happy", ps Cat.happy)
  have hsnd : sndMax (("happy", ps Cat.happy) : String × ℚ).2
      (patternItems ps).tail = maxPatternScore ps := rfl
  rw [hsnd] at h
  exact h

/-- A pattern score set with a single strong happy score. -/
def strongPs : Cat → ℚ := fun c => if c = Cat.happy then 3 / 5 else 0

unseal Rat.mul Rat.inv Rat.add Rat.sub in
theorem classify_pattern_precedence_witness :
    ∃ c : Cat, strongPs c = maxPatternScore strongPs ∧
      classify_emotion ⟨-1, 0, 1, 0⟩ ⟨-1, 0⟩ strongPs =
        (catName c, min (maxPatternScore strongPs) 1) :=
  classify_pattern_precedence ⟨-1, 0, 1, 0⟩ ⟨-1, 0⟩ strongPs (by decide)

/-- A pattern score set with an exact tie between sad and angry at the
top. -/
def tiePs : Cat → ℚ := fun c =>
  if c = Cat.sad ∨ c = Cat.angry then 7 / 10 else 0

unseal Rat.mul Rat.inv Rat.add Rat.sub in
theorem classify_tie_break_first_category_witness :
    List.find? (fun y => decide (y.2 = maxPatternScore tiePs))
        (patternItems tiePs) = some (max_pattern_emotion tiePs) :=
  classify_tie_break_first_category tiePs Cat.sad Cat.angry (by decide)
    (by decide) (by decide)

/-- C4: when the maximum pattern score does not exceed 0.5 (and the
sentiment scores are in their documented [-1,1] ranges, so the final clamp
is the identity), `classify_emotion` follows the sentiment fallback
exactly: the positive branch yields happy/positive, the negative branch
angry/sad, with confidence `|compound|` when compound is nonzero and
`|polarity|` otherwise, and the remaining case yields neutral with
confidence `1 - |compound|`. -/
theorem classify_sentiment_fallback (v : VaderScores) (b : BlobScores)
    (ps : Cat → ℚ) (hM : maxPatternScore ps ≤ 1 / 2)
    (hc : |v.compound| ≤ 1) (hp : |b.polarity| ≤ 1) :
    ((v.compound ≥ 1 / 2 ∨ b.polarity ≥ 3 / 10) →
      classify_emotion v b ps =
        ((if v.compound ≥ 7 / 10 ∨ b.polarity ≥ 1 / 2 then "happy"
            else "positive"),
          if v.compound ≠ 0 then |v.compound| else |b.polarity|)) ∧
    (¬(v.compound ≥ 1 / 2 ∨ b.polarity ≥ 3 / 10) →
      (v.compound ≤ -(1 / 2) ∨ b.polarity ≤ -(3 / 10)) →
      classify_emotion v b ps =
        ((if v.compound ≤ -(7 / 10) ∨ b.polarity ≤ -(1 / 2) then "angry"
            else "sad"),
          if v.compound ≠ 0 then |v.compound| else |b.polarity|)) ∧
    (¬(v.compound ≥ 1 / 2 ∨ b.polarity ≥ 3 / 10) →
      ¬(v.compound ≤ -(1 / 2) ∨ b.polarity ≤ -(3 / 10)) →
      classify_emotion v b ps = ("neutral", 1 - |v.compound|)) := by
  have hngt : ¬((max_pattern_emotion ps).2 > 1 / 2) := by
    rw [max_pattern_emotion_snd]
    linarith
  have habs : (0 : ℚ) ≤ |v.compound| := abs_nonneg _
  have habs2 : (0 : ℚ) ≤ |b.polarity| := abs_nonneg _
  have hconf : max 0 (min 1 (if v.compound ≠ 0 then |v.compound|
      else |b.polarity|)) =
      (if v.compound ≠ 0 then |v.compound| else |b.polarity|) := by
    split
    · exact clamp01_eq _ habs hc
    · exact clamp01_eq _ habs2 hp
  refine ⟨fun h1 => ?_, fun h1 h2 => ?_, fun h1 h2 => ?_⟩
  · simp only [classify_emotion]
    rw [if_neg hngt, if_pos h1]
    exact Prod.ext_iff.mpr ⟨rfl, hconf⟩
  · simp only [classify_emotion]
    rw [if_neg hngt, if_neg h1, if_pos h2]
    exact Prod.ext_iff.mpr ⟨rfl, hconf⟩
  · simp only [classify_emotion]
    rw [if_neg hngt, if_neg h1, if_neg h2]
    refine Prod.ext_iff.mpr ⟨rfl, ?_⟩
    show max 0 (min 1 (1 - |v.compound|)) = 1 - |v.compound|
    exact clamp01_eq _ (by linarith) (by linarith)

unseal Rat.mul Rat.inv Rat.add Rat.sub in
theorem classify_sentiment_fallback_witness :
    classify_emotion ⟨3 / 5, 0, 0, 0⟩ ⟨0, 0⟩ (fun _ => 0) =
      ("positive", 3 / 5) :=
  ((classify_sentiment_fallback ⟨3 / 5, 0, 0, 0⟩ ⟨0, 0⟩ (fun _ => 0)
      (by decide) (by decide) (by decide)).1
    (Or.inl (by decide))).trans (by decide)

/-- The confidence leaving `classify_emotion` is clamped into [0,1]. -/
theorem classify_conf_bounds (v : VaderScores) (b : BlobScores)
    (ps : Cat → ℚ) :
    0 ≤ (classify_emotion v b ps).2 ∧ (classify_emotion v b ps).2 ≤ 1 := by
  simp only [classify_emotion]
  exact ⟨le_max_left _ _, max_le zero_le_one (min_le_left _ _)⟩

/-- C6: for every input and every value of the two sentiment scorer
outputs, the confidence field of the result of `analyze` lies in [0,1]. -/
theorem analyze_confidence_in_unit_interval
    (vc : List Char → Except String VaderScores)
    (bc : List Char → Except String BlobScores) (inp : TextInput) :
    0 ≤ (analyze vc bc inp).confidence ∧
      (analyze vc bc inp).confidence ≤ 1 := by
  cases inp with
  | pyNone => exact ⟨by norm_num [analyze, defaultResult],
      by norm_num [analyze, defaultResult]⟩
  | nonString => exact ⟨by norm_num [analyze, defaultResult],
      by norm_num [analyze, defaultResult]⟩
  | str s =>
      by_cases h : (pyStrip s).length = 0
      · exact ⟨by norm_num [analyze, h, defaultResult],
          by norm_num [analyze, h, defaultResult]⟩
      · have hb := classify_conf_bounds
          (analyze_with_vader vc (preprocessStr s))
          (analyze_with_textblob bc (preprocessStr s))
          (analyze_emotion_patterns (preprocessStr s))
        simpa [analyze, h] using hb

/-- C5: `None`, non-string, empty and whitespace-only inputs short-circuit
`analyze` to the neutral default result (emotion neutral, confidence 0.5,
zero polarity/subjectivity, neutral lexicon scores, all pattern scores 0),
independently of the two scorer oracles. -/
theorem analyze_blank_input_default
    (vc : List Char → Except String VaderScores)
    (bc : List Char → Except String BlobScores) (inp : TextInput)
    (h : inp = TextInput.pyNone ∨ inp = TextInput.nonString ∨
      ∃ s, inp = TextInput.str s ∧ pyStrip s = []) :
    analyze vc bc inp = defaultResult := by
  rcases h with rfl | rfl | ⟨s, rfl, hs⟩
  · rfl
  · rfl
  · simp [analyze, hs]

theorem analyze_blank_input_default_witness :
    analyze (fun _ => Except.ok ⟨1, 1, 0, 0⟩)
        (fun _ => Except.ok ⟨1, 1⟩)
        (TextInput.str "   ".toList) = defaultResult :=
  analyze_blank_input_default _ _ _
    (Or.inr (Or.inr ⟨"   ".toList, rfl, by decide⟩))

/-- C9: when the underlying library calls raise, `analyze_with_vader`
returns the neutral lexicon default and `analyze_with_textblob` returns
the zero polarity default, and `analyze` behaves exactly as with scorers
that return those defaults normally — no error reaches its caller. -/
theorem scorer_failure_defaults
    (vc : List Char → Except String VaderScores)
    (bc : List Char → Except String BlobScores)
    (ev eb : List Char → String)
    (hv : ∀ u, vc u = Except.error (ev u))
    (hb : ∀ u, bc u = Except.error (eb u)) :
    (∀ u, analyze_with_vader vc u = defaultVader) ∧
    (∀ u, analyze_with_textblob bc u = defaultBlob) ∧
    (∀ inp, analyze vc bc inp =
      analyze (fun _ => Except.ok defaultVader)
        (fun _ => Except.ok defaultBlob) inp) := by
  refine ⟨fun u => by simp [analyze_with_vader, hv u],
    fun u => by simp [analyze_with_textblob, hb u], fun inp => ?_⟩
  cases inp with
  | pyNone => rfl
  | nonString => rfl
  | str s =>
      simp [analyze, analyze_with_vader, analyze_with_textblob, hv, hb]

theorem scorer_failure_defaults_witness :
    analyze_with_vader (fun _ => Except.error "boom") "hi".toList =
        defaultVader ∧
    analyze_with_textblob (fun _ => Except.error "bad") "hi".toList =
        defaultBlob ∧
    analyze (fun _ => Except.error "boom") (fun _ => Except.error "bad")
        (TextInput.str "ok".toList) =
      analyze (fun _ => Except.ok defaultVader)
        (fun _ => Except.ok defaultBlob) (TextInput.str "ok".toList) :=
  ⟨(scorer_failure_defaults _ _ (fun _ => "boom") (fun _ => "bad")
      (fun _ => rfl) (fun _ => rfl)).1 _,
   (scorer_failure_defaults _ _ (fun _ => "boom") (fun _ => "bad")
      (fun _ => rfl) (fun _ => rfl)).2.1 _,
   (scorer_failure_defaults _ _ (fun _ => "boom") (fun _ => "bad")
      (fun _ => rfl) (fun _ => rfl)).2.2 _⟩

/-! ### Claim theorems: intensifier / diminisher behaviour -/

/- C1 counterexample: on the normalized text "so slightly happy", which
contains both an intensifier and a diminisher, the happy group's base
score 0.3 is multiplied by both 1.5 and 0.7 (0.315), not by 1.5 only
(0.45) as the claim states — the diminisher check is not mutually
exclusive with the intensifier check. -/
unseal Rat.mul Rat.inv Rat.add Rat.sub in
theorem intensifier_diminisher_both_applied_cex :
    hasIntens "so slightly happy".toList = true ∧
    hasDim "so slightly happy".toList = true ∧
    countPat (Pat.alts happy1) "so slightly happy".toList = 1 ∧
    countPat (Pat.cls happyE) "so slightly happy".toList = 0 ∧
    countPat (Pat.alts happy3) "so slightly happy".toList = 0 ∧
    analyze_emotion_patterns "so slightly happy".toList Cat.happy =
      63 / 200 ∧
    (63 / 200 : ℚ) ≠ ((1 : ℚ) * (3 / 10)) * (3 / 2) := by
  decide

/-- C1 (amended): for every normalized text containing both a configured
intensifier and a configured diminisher, every matching pattern group's
base score is multiplied by both 1.5 and 0.7. -/
theorem score_with_intensifier_and_diminisher (t : List Char)
    (hI : hasIntens t = true) (hD : hasDim t = true) (c : Cat) :
    analyze_emotion_patterns t c =
      (patternsOf c).foldl
        (fun a p => a + (if countPat p t ≠ 0 then
          (((countPat p t : ℚ) * (3 / 10)) * (3 / 2)) * (7 / 10)
          else 0)) 0 := by
  simp only [analyze_emotion_patterns, patsScore, groupScore, hI, hD,
    if_true]

unseal Rat.mul Rat.inv Rat.add Rat.sub in
theorem score_with_intensifier_and_diminisher_witness :
    analyze_emotion_patterns "so slightly happy".toList Cat.happy =
      63 / 200 :=
  (score_with_intensifier_and_diminisher "so slightly happy".toList
      (by decide) (by decide) Cat.happy).trans (by decide)

/-- C10: intensifier detection is plain substring containment over the
whole normalized text (`intensifier in text`): whenever some configured
intensifier occurs as a substring — standalone word or not — every
matching pattern group's base score is multiplied by 1.5. -/
theorem intensifier_substring_semantics (t : List Char)
    (hI : hasIntens t = true) (c : Cat) :
    analyze_emotion_patterns t c =
      (patternsOf c).foldl
        (fun a p => a + (if countPat p t ≠ 0 then
          (if hasDim t then
              (((countPat p t : ℚ) * (3 / 10)) * (3 / 2)) * (7 / 10)
            else ((countPat p t : ℚ) * (3 / 10)) * (3 / 2))
          else 0)) 0 := by
  simp only [analyze_emotion_patterns, patsScore, groupScore, hI, if_true]

unseal Rat.mul Rat.inv Rat.add Rat.sub in
theorem intensifier_substring_semantics_witness :
    analyze_emotion_patterns "sorry i am happy".toList Cat.happy = 9 / 20 ∧
    analyze_emotion_patterns "so i am happy".toList Cat.happy = 9 / 20 :=
  ⟨(intensifier_substring_semantics "sorry i am happy".toList (by decide)
      Cat.happy).trans (by decide), by decide⟩

/-! ### Prepending an intensifier (claim C7) -/

/-- The prepended fragment "extremely ". -/
def extPre : List Char := "extremely ".toList

/-- `a` already fails to match the head of `seg` inside `seg` itself, so no
continuation of the text beyond `seg` can complete the match. -/
def failsInside (eqf : Char → Char → Bool) (a seg : List Char) : Bool :=
  !(isPrefixBy eqf (a.take seg.length) seg)

/-- Every alternative fails inside `ext` at every start offset. -/
def blockedAll (eqf : Char → Char → Bool) (alts : List (List Char)) :
    List Char → Bool
  | [] => true
  | c :: s => alts.all (fun a => failsInside eqf a (c :: s)) &&
      blockedAll eqf alts s

theorem isPrefixBy_append_false (eqf : Char → Char → Bool) :
    ∀ (seg a t : List Char),
    isPrefixBy eqf (a.take seg.length) seg = false →
    isPrefixBy eqf a (seg ++ t) = false := by
  intro seg
  induction seg with
  | nil =>
      intro a t h
      simp [isPrefixBy, List.take] at h
  | cons c cs ih =>
      intro a t h
      cases a with
      | nil => simp [isPrefixBy, List.take] at h
      | cons p ps =>
          simp only [List.length_cons, List.take_succ_cons] at h
          rw [List.cons_append]
          show (eqf p c && isPrefixBy eqf ps (cs ++ t)) = false
          have h' : (eqf p c && isPrefixBy eqf (ps.take cs.length) cs) =
              false := h
          cases hpc : eqf p c with
          | false => simp [hpc]
          | true =>
              rw [hpc, Bool.true_and] at h'
              rw [Bool.true_and]
              exact ih ps t h'

theorem scanAlts_append_of_blocked (alts : List (List Char))
    (t : List Char) : ∀ (ext : List Char) (w : Bool),
    blockedAll eqCI alts ext = true →
    scanAlts alts w 0 (ext ++ t) =
      scanAlts alts (ext.foldl (fun _ c => isWord c) w) 0 t := by
  intro ext
  induction ext with
  | nil => intro w _; rfl
  | cons c s ih =>
      intro w h
      rw [show blockedAll eqCI alts (c :: s) =
          (alts.all (fun a => failsInside eqCI a (c :: s)) &&
            blockedAll eqCI alts s) from rfl, Bool.and_eq_true] at h
      obtain ⟨hall, hrest⟩ := h
      have hnone : firstAlt alts (c :: (s ++ t)) = none := by
        rw [firstAlt, List.find?_eq_none]
        intro a ha
        have hfail := List.all_eq_true.mp hall a ha
        rw [failsInside, Bool.not_eq_true'] at hfail
        have hp := isPrefixBy_append_false eqCI (c :: s) a t hfail
        rw [List.cons_append] at hp
        simp [altOk, hp]
      rw [List.cons_append, List.foldl_cons]
      show (if w != isWord c then
          match firstAlt alts (c :: (s ++ t)) with
          | some a => 1 + scanAlts alts (isWord c) (a.length - 1) (s ++ t)
          | none => scanAlts alts (isWord c) 0 (s ++ t)
        else scanAlts alts (isWord c) 0 (s ++ t)) =
        scanAlts alts (s.foldl (fun _ c => isWord c) (isWord c)) 0 t
      rw [hnone]
      rw [ite_self]
      exact ih (isWord c) hrest

theorem containsSub_append_of_blocked (d : List Char) :
    ∀ (ext t : List Char), blockedAll eqCS [d] ext = true →
    containsSub d (ext ++ t) = containsSub d t := by
  intro ext
  induction ext with
  | nil => intro t _; rfl
  | cons c s ih =>
      intro t h
      rw [show blockedAll eqCS [d] (c :: s) =
          (([d]).all (fun a => failsInside eqCS a (c :: s)) &&
            blockedAll eqCS [d] s) from rfl, Bool.and_eq_true] at h
      obtain ⟨hall, hrest⟩ := h
      have hfail := List.all_eq_true.mp hall d (List.mem_singleton_self d)
      rw [failsInside, Bool.not_eq_true'] at hfail
      have hp := isPrefixBy_append_false eqCS (c :: s) d t hfail
      rw [List.cons_append] at hp
      rw [List.cons_append]
      show (isPrefixBy eqCS d (c :: (s ++ t)) ||
          containsSub d (s ++ t)) = containsSub d t
      rw [hp, Bool.false_or]
      exact ih t hrest

theorem isPrefixBy_eqCS_self_append (p r : List Char) :
    isPrefixBy eqCS p (p ++ r) = true := by
  induction p with
  | nil => rfl
  | cons c cs ih =>
      show (eqCS c c && isPrefixBy eqCS cs (cs ++ r)) = true
      simp [eqCS, ih]

theorem containsSub_self_append (c : Char) (cs r : List Char) :
    containsSub (c :: cs) ((c :: cs) ++ r) = true := by
  rw [List.cons_append]
  show (isPrefixBy eqCS (c :: cs) (c :: (cs ++ r)) ||
      containsSub (c :: cs) (cs ++ r)) = true
  rw [← List.cons_append, isPrefixBy_eqCS_self_append, Bool.true_or]

/-- Prepending "extremely " makes the intensifier check succeed. -/
theorem hasIntens_extPre (t : List Char) : hasIntens (extPre ++ t) = true := by
  have h : containsSub "extremely".toList (extPre ++ t) = true := by
    have he : extPre ++ t = "extremely".toList ++ (' ' :: t) := rfl
    rw [he]
    exact containsSub_self_append 'e' "xtremely".toList (' ' :: t)
  simp only [hasIntens, intensifiersL, List.map, List.any_cons,
    List.any_nil]
  rw [h]
  simp

/-- Prepending "extremely " cannot create or destroy a diminisher
occurrence. -/
theorem hasDim_extPre (t : List Char) : hasDim (extPre ++ t) = hasDim t := by
  have h1 := containsSub_append_of_blocked "slightly".toList extPre t
    (by decide)
  have h2 := containsSub_append_of_blocked "somewhat".toList extPre t
    (by decide)
  have h3 := containsSub_append_of_blocked "kind of".toList extPre t
    (by decide)
  have h4 := containsSub_append_of_blocked "sort of".toList extPre t
    (by decide)
  have h5 := containsSub_append_of_blocked "a bit".toList extPre t
    (by decide)
  have h6 := containsSub_append_of_blocked "little".toList extPre t
    (by decide)
  simp only [hasDim, diminishersL, List.map, List.any_cons, List.any_nil]
  rw [h1, h2, h3, h4, h5, h6]

theorem countPat_alts_extPre (l : List (List Char)) (t : List Char)
    (h : blockedAll eqCI l extPre = true) :
    countPat (Pat.alts l) (extPre ++ t) = countPat (Pat.alts l) t := by
  have hw : extPre.foldl (fun _ c => isWord c) false = false := by decide
  show scanAlts l false 0 (extPre ++ t) = scanAlts l false 0 t
  rw [scanAlts_append_of_blocked l t extPre false h, hw]

theorem countPat_cls_extPre (s : List Char) (t : List Char)
    (h : extPre.countP (fun c => s.contains c) = 0) :
    countPat (Pat.cls s) (extPre ++ t) = countPat (Pat.cls s) t := by
  show (extPre ++ t).countP (fun c => s.contains c) =
    t.countP (fun c => s.contains c)
  rw [List.countP_append, h, Nat.zero_add]


/-- Closed form of a group's score contribution. -/
theorem groupScore_eval (t : List Char) (p : Pat) :
    groupScore t p = if countPat p t ≠ 0 then
      ((countPat p t : ℚ) * (3 / 10)) * (if hasIntens t then 3 / 2 else 1) *
        (if hasDim t then 7 / 10 else 1)
    else 0 := by
  simp only [groupScore]
  split_ifs <;> ring

theorem groupScore_nonneg (t : List Char) (p : Pat) : 0 ≤ groupScore t p := by
  rw [groupScore_eval]
  split_ifs <;> positivity

theorem groupScore_pos_count (t : List Char) (p : Pat)
    (h : 0 < groupScore t p) : countPat p t ≠ 0 := by
  intro h0
  rw [groupScore_eval] at h
  simp [h0] at h

/-- Group score comparison between a text and the text with "extremely "
prepended. -/
theorem groupScore_extPre (t : List Char) (p : Pat)
    (hcnt : countPat p (extPre ++ t) = countPat p t) :
    groupScore t p ≤ groupScore (extPre ++ t) p ∧
    (hasIntens t = false → countPat p t ≠ 0 →
      groupScore t p < groupScore (extPre ++ t) p) := by
  rw [groupScore_eval t p, groupScore_eval (extPre ++ t) p, hcnt,
    hasIntens_extPre, hasDim_extPre]
  by_cases hn : countPat p t = 0
  · refine ⟨by simp [hn], fun _ h => absurd hn h⟩
  · have hA : (0 : ℚ) ≤ (countPat p t : ℚ) * (3 / 10) := by positivity
    have hApos : (0 : ℚ) < (countPat p t : ℚ) * (3 / 10) := by
      have hc : (0 : ℚ) < (countPat p t : ℚ) :=
        Nat.cast_pos.mpr (Nat.pos_of_ne_zero hn)
      positivity
    constructor
    · cases hI : hasIntens t
      · norm_num [hn]
        split_ifs <;> nlinarith [hA]
      · norm_num [hn]
    · intro hIf _
      rw [hIf]
      norm_num [hn]
      split_ifs <;> nlinarith [hApos]

/-- Score comparison for one three-group category. -/
theorem patsScore3_extPre (p₁ p₂ p₃ : Pat) (t : List Char)
    (h₁ : countPat p₁ (extPre ++ t) = countPat p₁ t)
    (h₂ : countPat p₂ (extPre ++ t) = countPat p₂ t)
    (h₃ : countPat p₃ (extPre ++ t) = countPat p₃ t) :
    patsScore t [p₁, p₂, p₃] ≤ patsScore (extPre ++ t) [p₁, p₂, p₃] ∧
    (hasIntens t = false → 0 < patsScore t [p₁, p₂, p₃] →
      patsScore t [p₁, p₂, p₃] < patsScore (extPre ++ t) [p₁, p₂, p₃]) := by
  have g₁ := groupScore_extPre t p₁ h₁
  have g₂ := groupScore_extPre t p₂ h₂
  have g₃ := groupScore_extPre t p₃ h₃
  have n₁ := groupScore_nonneg t p₁
  have n₂ := groupScore_nonneg t p₂
  have n₃ := groupScore_nonneg t p₃
  simp only [patsScore, List.foldl_cons, List.foldl_nil]
  constructor
  · linarith [g₁.1, g₂.1, g₃.1]
  · intro hIf hpos
    have hcase : 0 < groupScore t p₁ ∨ 0 < groupScore t p₂ ∨
        0 < groupScore t p₃ := by
      by_contra hcon
      push_neg at hcon
      obtain ⟨k₁, k₂, k₃⟩ := hcon
      linarith
    rcases hcase with hp₁ | hp₂ | hp₃
    · have := g₁.2 hIf (groupScore_pos_count t p₁ hp₁)
      linarith [g₂.1, g₃.1]
    · have := g₂.2 hIf (groupScore_pos_count t p₂ hp₂)
      linarith [g₁.1, g₃.1]
    · have := g₃.2 hIf (groupScore_pos_count t p₃ hp₃)
      linarith [g₁.1, g₂.1]

/-- C7 (amended): prepending "extremely " never decreases any category's
pattern score, and strictly increases a positive category score whenever
the original text contains no configured intensifier; when an intensifier
is already present the score is unchanged, so the increase claimed for
every positive score fails. -/
theorem prepend_intensifier_monotone (t : List Char) (c : Cat) :
    analyze_emotion_patterns t c ≤ analyze_emotion_patterns (extPre ++ t) c ∧
    (hasIntens t = false → 0 < analyze_emotion_patterns t c →
      analyze_emotion_patterns t c <
        analyze_emotion_patterns (extPre ++ t) c) := by
  cases c with
  | happy =>
      simp only [analyze_emotion_patterns, patternsOf]
      exact patsScore3_extPre _ _ _ t
        (countPat_alts_extPre happy1 t (by decide))
        (countPat_cls_extPre happyE t (by decide))
        (countPat_alts_extPre happy3 t (by decide))
  | sad =>
      simp only [analyze_emotion_patterns, patternsOf]
      exact patsScore3_extPre _ _ _ t
        (countPat_alts_extPre sad1 t (by decide))
        (countPat_cls_extPre sadE t (by decide))
        (countPat_alts_extPre sad3 t (by decide))
  | angry =>
      simp only [analyze_emotion_patterns, patternsOf]
      exact patsScore3_extPre _ _ _ t
        (countPat_alts_extPre angry1 t (by decide))
        (countPat_cls_extPre angryE t (by decide))
        (countPat_alts_extPre angry3 t (by decide))
  | surprised =>
      simp only [analyze_emotion_patterns, patternsOf]
      exact patsScore3_extPre _ _ _ t
        (countPat_alts_extPre surprised1 t (by decide))
        (countPat_cls_extPre surprisedE t (by decide))
        (countPat_alts_extPre surprised3 t (by decide))
  | fearful =>
      simp only [analyze_emotion_patterns, patternsOf]
      exact patsScore3_extPre _ _ _ t
        (countPat_alts_extPre fearful1 t (by decide))
        (countPat_cls_extPre fearfulE t (by decide))
        (countPat_alts_extPre fearful3 t (by decide))
  | disgusted =>
      simp only [analyze_emotion_patterns, patternsOf]
      exact patsScore3_extPre _ _ _ t
        (countPat_alts_extPre disgusted1 t (by decide))
        (countPat_cls_extPre disgustedE t (by decide))
        (countPat_alts_extPre disgusted3 t (by decide))

/- C7 counterexample: "so happy" already contains an intensifier, scores
0.45 > 0 for happy, and prepending "extremely " leaves the score at
exactly 0.45 — not a strict increase. -/
unseal Rat.mul Rat.inv Rat.add Rat.sub in
theorem prepend_intensifier_not_strict_cex :
    0 < analyze_emotion_patterns "so happy".toList Cat.happy ∧
    ¬(analyze_emotion_patterns "so happy".toList Cat.happy <
      analyze_emotion_patterns (extPre ++ "so happy".toList) Cat.happy) := by
  decide

unseal Rat.mul Rat.inv Rat.add Rat.sub in
theorem prepend_intensifier_monotone_witness :
    0 < analyze_emotion_patterns "slightly happy".toList Cat.happy ∧
    analyze_emotion_patterns "slightly happy".toList Cat.happy <
      analyze_emotion_patterns (extPre ++ "slightly happy".toList)
        Cat.happy :=
  ⟨by decide, (prepend_intensifier_monotone "slightly happy".toList
      Cat.happy).2 (by decide) (by decide)⟩

/-! ### Run-based specification of the normalizer (claim C8) -/

/-- Modelled from the spec: emission for one maximal run under the
"collapse any run of 2+ `target` into a single `target`" rule. -/
def runEmit1 (target c : Char) (n : Nat) : List Char :=
  if c = target ∧ 2 ≤ n then [c] else List.replicate n c

def runs1Aux (target c : Char) (n : Nat) : List Char → List Char
  | [] => runEmit1 target c n
  | x :: xs =>
      if x = c then runs1Aux target c (n + 1) xs
      else runEmit1 target c n ++ runs1Aux target x 1 xs

/-- Maximal-run description of collapsing every run of 2+ copies of
`target` into one occurrence. -/
def runsCollapse1 (target : Char) : List Char → List Char
  | [] => []
  | x :: xs => runs1Aux target x 1 xs

/-- Emission for one maximal run under the repeated-character rule: a run
of 3+ identical characters other than newline becomes exactly 2
occurrences. -/
def runEmit3 (c : Char) (n : Nat) : List Char :=
  if 3 ≤ n ∧ c ≠ '\n' then [c, c] else List.replicate n c

def runs3Aux (c : Char) (n : Nat) : List Char → List Char
  | [] => runEmit3 c n
  | x :: xs =>
      if x = c then runs3Aux c (n + 1) xs
      else runEmit3 c n ++ runs3Aux x 1 xs

def runsCollapse3 : List Char → List Char
  | [] => []
  | x :: xs => runs3Aux x 1 xs

/-- The normalizer as the (amended) claim describes it: lower-case and
strip, then collapse runs of `!`, runs of `?`, and runs of 3+ identical
non-newline characters, run by run; non-string input yields the empty
string. -/
def normalizeSpec : TextInput → List Char
  | TextInput.str s =>
      runsCollapse3 (runsCollapse1 '?' (runsCollapse1 '!'
        (pyStrip (pyLower s))))
  | _ => []

theorem replicate_succ_append (x : Char) (n : Nat) (l : List Char) :
    List.replicate (n + 1) x ++ l = List.replicate n x ++ x :: l := by
  rw [List.replicate_succ', List.append_assoc]
  rfl

theorem runEmit1_target (target : Char) (m : Nat) :
    runEmit1 target target (m + 1) = [target] := by
  rw [runEmit1]
  split_ifs with h
  · rfl
  · push_neg at h
    have h2 := h rfl
    have hm : m = 0 := by omega
    subst hm
    rfl

theorem collapseChar_replicate (target x : Char) :
    ∀ n, collapseChar target (List.replicate (n + 1) x) =
      runEmit1 target x (n + 1) := by
  intro n
  induction n with
  | zero => simp [collapseChar, runEmit1, List.replicate]
  | succ n ih =>
      by_cases hx : x = target
      · subst hx
        have hc : collapseChar x (List.replicate (n + 1 + 1) x) =
            collapseChar x (List.replicate (n + 1) x) := by
          show collapseChar x (x :: x :: List.replicate n x) = _
          simp [collapseChar, List.replicate_succ]
        rw [hc, ih, runEmit1_target, runEmit1_target]
      · have hb : (x == target) = false := beq_eq_false_iff_ne.mpr hx
        have hcond : (x == target && x == target) = false := by
          rw [hb]
          rfl
        have h1 : collapseChar target (List.replicate (n + 1 + 1) x) =
            x :: collapseChar target (List.replicate (n + 1) x) := by
          show collapseChar target (x :: x :: List.replicate n x) = _
          simp only [collapseChar]
          rw [hcond]
          simp [List.replicate_succ]
        rw [h1, ih, runEmit1, if_neg (fun hcontra => hx hcontra.1),
          runEmit1, if_neg (fun hcontra => hx hcontra.1)]
        rfl

theorem collapseChar_replicate_append (target x y : Char) (ys : List Char)
    (hxy : y ≠ x) : ∀ n,
    collapseChar target (List.replicate (n + 1) x ++ y :: ys) =
      runEmit1 target x (n + 1) ++ collapseChar target (y :: ys) := by
  intro n
  induction n with
  | zero =>
      have hcond : (x == target && y == target) = false := by
        by_cases hx : x = target
        · subst hx
          simp [show y ≠ x from hxy]
        · simp [hx]
      show collapseChar target (x :: y :: ys) = _
      simp [collapseChar, hcond, runEmit1]
  | succ n ih =>
      by_cases hx : x = target
      · subst hx
        have h1 : collapseChar x (List.replicate (n + 1 + 1) x ++ y :: ys) =
            collapseChar x (List.replicate (n + 1) x ++ y :: ys) := by
          show collapseChar x (x :: x :: (List.replicate n x ++ y :: ys)) = _
          simp [collapseChar, List.replicate_succ]
        rw [h1, ih, runEmit1_target, runEmit1_target]
      · have hb : (x == target) = false := beq_eq_false_iff_ne.mpr hx
        have hcond : (x == target && x == target) = false := by
          rw [hb]
          rfl
        have h1 : collapseChar target
            (List.replicate (n + 1 + 1) x ++ y :: ys) =
            x :: collapseChar target (List.replicate (n + 1) x ++ y :: ys) := by
          show collapseChar target (x :: x :: (List.replicate n x ++ y :: ys)) = _
          simp only [collapseChar]
          rw [hcond]
          simp [List.replicate_succ]
        rw [h1, ih, runEmit1, if_neg (fun hcontra => hx hcontra.1),
          runEmit1, if_neg (fun hcontra => hx hcontra.1)]
        rfl

theorem runs1Aux_eq (target : Char) :
    ∀ (l : List Char) (x : Char) (n : Nat),
    runs1Aux target x (n + 1) l =
      collapseChar target (List.replicate (n + 1) x ++ l) := by
  intro l
  induction l with
  | nil =>
      intro x n
      rw [List.append_nil]
      exact (collapseChar_replicate target x n).symm
  | cons y ys ih =>
      intro x n
      by_cases hxy : y = x
      · subst hxy
        have hstep : runs1Aux target y (n + 1) (y :: ys) =
            runs1Aux target y (n + 1 + 1) ys := by
          simp [runs1Aux]
        rw [hstep, ih y (n + 1), replicate_succ_append]
      · have hstep : runs1Aux target x (n + 1) (y :: ys) =
            runEmit1 target x (n + 1) ++ runs1Aux target y 1 ys := by
          simp [runs1Aux, hxy]
        rw [hstep, ih y 0,
          collapseChar_replicate_append target x y ys hxy n]
        rfl

theorem collapseChar_eq_runsCollapse1 (target : Char) (l : List Char) :
    collapseChar target l = runsCollapse1 target l := by
  cases l with
  | nil => rfl
  | cons x xs =>
      rw [show runsCollapse1 target (x :: xs) = runs1Aux target x 1 xs
          from rfl, runs1Aux_eq target xs x 0]
      rfl

theorem runEmit3_two (c : Char) (hc : c ≠ '\n') (m : Nat) :
    runEmit3 c (m + 2) = [c, c] := by
  rw [runEmit3]
  split_ifs with h
  · rfl
  · push_neg at h
    have h2 := h
    have hm : m = 0 := by
      by_contra hm
      exact hc (h2 (by omega))
    subst hm
    rfl

theorem runEmit3_newline (n : Nat) :
    runEmit3 '\n' n = List.replicate n '\n' := by
  simp [runEmit3]

theorem collapseRepeats_replicate (x : Char) :
    ∀ n, collapseRepeats (List.replicate (n + 1) x) = runEmit3 x (n + 1) := by
  intro n
  induction n with
  | zero => simp [collapseRepeats, runEmit3, List.replicate]
  | succ n ih =>
      cases n with
      | zero =>
          show collapseRepeats [x, x] = runEmit3 x 2
          simp [collapseRepeats, runEmit3]
      | succ m =>
          by_cases hx : x = '\n'
          · subst hx
            have hcond : (('\n' : Char) == '\n' && ('\n' : Char) == '\n' &&
                !(('\n' : Char) == '\n')) = false := by simp
            have h1 : collapseRepeats (List.replicate (m + 3) '\n') =
                '\n' :: collapseRepeats (List.replicate (m + 2) '\n') := by
              show collapseRepeats
                ('\n' :: '\n' :: '\n' :: List.replicate m '\n') = _
              simp [collapseRepeats, List.replicate_succ]
            rw [h1, ih, runEmit3_newline, runEmit3_newline]
            rfl
          · have h1 : collapseRepeats (List.replicate (m + 3) x) =
                collapseRepeats (List.replicate (m + 2) x) := by
              show collapseRepeats (x :: x :: x :: List.replicate m x) = _
              simp [collapseRepeats, hx, List.replicate_succ]
            rw [h1, ih, runEmit3_two x hx, runEmit3_two x hx]

theorem collapseRepeats_replicate_append (x y : Char) (ys : List Char)
    (hxy : y ≠ x) : ∀ n,
    collapseRepeats (List.replicate (n + 1) x ++ y :: ys) =
      runEmit3 x (n + 1) ++ collapseRepeats (y :: ys) := by
  intro n
  induction n with
  | zero =>
      cases ys with
      | nil =>
          show collapseRepeats [x, y] = runEmit3 x 1 ++ collapseRepeats [y]
          simp [collapseRepeats, runEmit3]
      | cons z zs =>
          have hcond : (x == y) = false := by
            simp [show x ≠ y from fun h => hxy h.symm]
          show collapseRepeats (x :: y :: z :: zs) = _
          simp [collapseRepeats, hcond, runEmit3]
  | succ n ih =>
      cases n with
      | zero =>
          have hcond : (x == y) = false := by
            simp [show x ≠ y from fun h => hxy h.symm]
          have h1 : collapseRepeats (List.replicate 2 x ++ y :: ys) =
              x :: collapseRepeats (List.replicate 1 x ++ y :: ys) := by
            show collapseRepeats (x :: x :: y :: ys) = _
            simp [collapseRepeats, hcond]
          rw [h1, ih]
          show x :: (runEmit3 x 1 ++ _) = runEmit3 x 2 ++ _
          simp [runEmit3]
      | succ m =>
          by_cases hx : x = '\n'
          · subst hx
            have h1 : collapseRepeats
                (List.replicate (m + 3) '\n' ++ y :: ys) =
                '\n' :: collapseRepeats
                  (List.replicate (m + 2) '\n' ++ y :: ys) := by
              show collapseRepeats
                ('\n' :: '\n' :: '\n' :: (List.replicate m '\n' ++ y :: ys)) = _
              simp [collapseRepeats, List.replicate_succ]
            rw [h1, ih, runEmit3_newline, runEmit3_newline]
            rfl
          · have h1 : collapseRepeats (List.replicate (m + 3) x ++ y :: ys) =
                collapseRepeats (List.replicate (m + 2) x ++ y :: ys) := by
              show collapseRepeats
                (x :: x :: x :: (List.replicate m x ++ y :: ys)) = _
              simp [collapseRepeats, hx, List.replicate_succ]
            rw [h1, ih, runEmit3_two x hx, runEmit3_two x hx]

theorem runs3Aux_eq :
    ∀ (l : List Char) (x : Char) (n : Nat),
    runs3Aux x (n + 1) l =
      collapseRepeats (List.replicate (n + 1) x ++ l) := by
  intro l
  induction l with
  | nil =>
      intro x n
      rw [List.append_nil]
      exact (collapseRepeats_replicate x n).symm
  | cons y ys ih =>
      intro x n
      by_cases hxy : y = x
      · subst hxy
        have hstep : runs3Aux y (n + 1) (y :: ys) =
            runs3Aux y (n + 1 + 1) ys := by
          simp [runs3Aux]
        rw [hstep, ih y (n + 1), replicate_succ_append]
      · have hstep : runs3Aux x (n + 1) (y :: ys) =
            runEmit3 x (n + 1) ++ runs3Aux y 1 ys := by
          simp [runs3Aux, hxy]
        rw [hstep, ih y 0, collapseRepeats_replicate_append x y ys hxy n]
        rfl

theorem collapseRepeats_eq_runsCollapse3 (l : List Char) :
    collapseRepeats l = runsCollapse3 l := by
  cases l with
  | nil => rfl
  | cons x xs =>
      rw [show runsCollapse3 (x :: xs) = runs3Aux x 1 xs from rfl,
        runs3Aux_eq xs x 0]
      rfl

/- C8 counterexample: interior newline runs are not collapsed, because the
Python regex `(.)\1{2,}` cannot match `'\n'`; the claim predicts
"a\n\nb" but the code returns the input unchanged. -/
theorem preprocess_newline_run_cex :
    preprocess_text (TextInput.str "a\n\n\nb".toList) = "a\n\n\nb".toList ∧
    "a\n\n\nb".toList ≠ "a\n\nb".toList := by
  decide

/-- C8 (amended): `preprocess_text` returns the input lower-cased and
stripped, with every run of 2+ `!` collapsed to one `!`, every run of 2+
`?` collapsed to one `?`, and every run of 3+ identical characters other
than newline collapsed to exactly 2 occurrences; non-string input and
input empty after trimming yield the empty string, and the function is
total. -/
theorem preprocess_eq_run_collapse_spec (inp : TextInput) :
    preprocess_text inp = normalizeSpec inp := by
  cases inp with
  | pyNone => rfl
  | nonString => rfl
  | str s =>
      show preprocessStr s = runsCollapse3 (runsCollapse1 '?'
        (runsCollapse1 '!' (pyStrip (pyLower s))))
      rw [preprocessStr, collapseChar_eq_runsCollapse1,
        collapseChar_eq_runsCollapse1, collapseRepeats_eq_runsCollapse3]

end EchoSphere
